import Mathlib

/-!
Verification of the annual-radiation workflow DAG (`pollination/annual_radiation/entry.py`).

The repository declares a single workflow, `AnnualRadiationEntryPoint`: eight task
nodes with explicit `needs` edges, input bindings that reference sibling tasks'
outputs, workflow-level inputs with validation constraints, and one looped task
(`annual_radiation_raytracing`) expanded over the discovered sensor-grid
collection.  The generic engine that consumes these declarations (dependency-graph
construction, loop expansion, scheduling) is an external collaborator described by
the specification; it is modelled here from the specification's contracts, while
every concrete declaration is translated from the source file.
-/

namespace AnnualRadiation

/-- A bound value of a task input: a workflow-level input, a literal, or a
reference to another node's output (optionally narrowed to a sub-path inside
that output artifact, as produced by loop expansion). -/
inductive Binding where
  | workflowInput (name : String)
  | literal (value : String)
  | nodeOutput (node : String) (output : String)
  | nodeOutputSub (node : String) (output : String) (subPath : String)
deriving DecidableEq

/-- One declared output routing of a task: the template class the artifact is
taken from, the output's logical name, and an optional destination path. -/
structure OutputDecl where
  fromTemplate : String
  outName : String
  dest : Option String
deriving DecidableEq

/-- A task-node declaration, translated from one `@task` function of
`AnnualRadiationEntryPoint` in `entry.py`. -/
structure TaskNode where
  id : String
  template : String
  inputs : List (String × Binding)
  outputs : List OutputDecl
  needs : List String
  loopSource : Option (String × String)
  subFolder : Option String
  subPaths : List (String × String)
deriving DecidableEq

/-- An external template contract: its name and declared output names. -/
structure TemplateDecl where
  name : String
  outputs : List String
deriving DecidableEq

/-- Modelled from the spec: the external template contracts consumed by
`entry.py` (section 6, "each external task declares ... a fixed output list").
The templates live in `pollination.honeybee_radiance`, outside this repository;
their output lists are the ones `entry.py` consumes. -/
def entryTemplates : List TemplateDecl :=
  [ ⟨"CreateSunMatrix", ["sunpath", "sun_modifiers"]⟩
  , ⟨"CreateRadianceFolder", ["model_folder", "sensor_grids_file", "sensor_grids"]⟩
  , ⟨"CreateOctree", ["scene_file"]⟩
  , ⟨"CreateOctreeWithSky", ["scene_file"]⟩
  , ⟨"CreateSkyDome", ["sky_dome"]⟩
  , ⟨"CreateSkyMatrix", ["sky_matrix"]⟩
  , ⟨"ParseSunUpHours", ["sun_up_hours"]⟩
  , ⟨"AnnualRadiationRayTracing", []⟩ ]

/-- The item-name placeholder appearing in sub-folder and sub-path patterns of
`entry.py` (braces written as escapes). -/
def itemNamePlaceholder : String := "\x7b\x7bitem.name\x7d\x7d"

/-- Task `generate_sunpath` of `entry.py`. -/
def generate_sunpath : TaskNode :=
  ⟨"generate_sunpath", "CreateSunMatrix",
   [("north", .workflowInput "north"), ("wea", .workflowInput "wea"),
    ("output_type", .literal "1")],
   [⟨"CreateSunMatrix", "sunpath", some "resources/sunpath.mtx"⟩,
    ⟨"CreateSunMatrix", "sun_modifiers", some "resources/suns.mod"⟩],
   [], none, none, []⟩

/-- Task `create_rad_folder` of `entry.py`. -/
def create_rad_folder : TaskNode :=
  ⟨"create_rad_folder", "CreateRadianceFolder",
   [("input_model", .workflowInput "model")],
   [⟨"CreateRadianceFolder", "model_folder", some "model"⟩,
    ⟨"CreateRadianceFolder", "sensor_grids_file", some "results/direct/grids_info.json"⟩,
    ⟨"CreateRadianceFolder", "sensor_grids_file", some "results/total/grids_info.json"⟩,
    ⟨"CreateRadianceFolder", "sensor_grids", none⟩],
   [], none, none, []⟩

/-- Task `create_octree` of `entry.py`: its template is `CreateOctree`, while its
declared output artifact is written `CreateOctreeWithSky()._outputs.scene_file`
in the source. -/
def create_octree : TaskNode :=
  ⟨"create_octree", "CreateOctree",
   [("model", .nodeOutput "create_rad_folder" "model_folder")],
   [⟨"CreateOctreeWithSky", "scene_file", some "resources/scene.oct"⟩],
   ["create_rad_folder"], none, none, []⟩

/-- Task `create_octree_with_suns` of `entry.py`. -/
def create_octree_with_suns : TaskNode :=
  ⟨"create_octree_with_suns", "CreateOctreeWithSky",
   [("model", .nodeOutput "create_rad_folder" "model_folder"),
    ("sky", .nodeOutput "generate_sunpath" "sunpath")],
   [⟨"CreateOctreeWithSky", "scene_file", some "resources/scene_with_suns.oct"⟩],
   ["generate_sunpath", "create_rad_folder"], none, none, []⟩

/-- Task `create_sky_dome` of `entry.py`. -/
def create_sky_dome : TaskNode :=
  ⟨"create_sky_dome", "CreateSkyDome", [],
   [⟨"CreateSkyDome", "sky_dome", some "resources/sky.dome"⟩],
   [], none, none, []⟩

/-- Task `create_indirect_sky` of `entry.py`. -/
def create_indirect_sky : TaskNode :=
  ⟨"create_indirect_sky", "CreateSkyMatrix",
   [("north", .workflowInput "north"), ("wea", .workflowInput "wea"),
    ("sky_component", .literal "-s"), ("output_type", .literal "1")],
   [⟨"CreateSkyMatrix", "sky_matrix", some "resources/sky_direct.mtx"⟩],
   [], none, none, []⟩

/-- Task `parse_sun_up_hours` of `entry.py`. -/
def parse_sun_up_hours : TaskNode :=
  ⟨"parse_sun_up_hours", "ParseSunUpHours",
   [("sun_modifiers", .nodeOutput "generate_sunpath" "sun_modifiers")],
   [⟨"ParseSunUpHours", "sun_up_hours", some "results/total/sun-up-hours.txt"⟩,
    ⟨"ParseSunUpHours", "sun_up_hours", some "results/direct/sun-up-hours.txt"⟩],
   ["generate_sunpath"], none, none, []⟩

/-- Task `annual_radiation_raytracing` of `entry.py`: the looped task, expanded
over `create_rad_folder._outputs.sensor_grids`. -/
def annual_radiation_raytracing : TaskNode :=
  ⟨"annual_radiation_raytracing", "AnnualRadiationRayTracing",
   [("sensor_count", .workflowInput "sensor_count"),
    ("radiance_parameters", .workflowInput "radiance_parameters"),
    ("octree_file_with_suns", .nodeOutput "create_octree_with_suns" "scene_file"),
    ("octree_file", .nodeOutput "create_octree" "scene_file"),
    ("grid_name", .literal itemNamePlaceholder),
    ("sensor_grid", .nodeOutput "create_rad_folder" "model_folder"),
    ("sky_dome", .nodeOutput "create_sky_dome" "sky_dome"),
    ("sky_matrix_indirect", .nodeOutput "create_indirect_sky" "sky_matrix"),
    ("sunpath", .nodeOutput "generate_sunpath" "sunpath"),
    ("sun_modifiers", .nodeOutput "generate_sunpath" "sun_modifiers")],
   [],
   ["create_sky_dome", "create_octree_with_suns", "create_octree", "generate_sunpath",
    "create_indirect_sky", "create_rad_folder"],
   some ("create_rad_folder", "sensor_grids"),
   some ("initial_results/" ++ itemNamePlaceholder),
   [("sensor_grid", "grid/" ++ itemNamePlaceholder ++ ".pts")]⟩

/-- The eight task nodes of `AnnualRadiationEntryPoint`, in declaration order. -/
def AnnualRadiationEntryPoint : List TaskNode :=
  [generate_sunpath, create_rad_folder, create_octree, create_octree_with_suns,
   create_sky_dome, create_indirect_sky, parse_sun_up_hours, annual_radiation_raytracing]

/-! ### Dependency-graph construction (modelled from the spec, section 4.1) -/

/-- Build-time error taxonomy of the spec (section 7). -/
inductive BuildError where
  | CycleError
  | DuplicateNodeError
  | UnresolvedReferenceError
deriving DecidableEq

/-- The ids of a node list, in declaration order. -/
def nodeIds (nodes : List TaskNode) : List String := nodes.map (·.id)

/-- Explicit dependency edges: one edge `(a, b)` for each entry `a` of `b.needs`. -/
def needsEdges (nodes : List TaskNode) : List (String × String) :=
  nodes.flatMap (fun n => n.needs.map (fun m => (m, n.id)))

/-- The node whose output a binding references, if any. -/
def bindingRefTarget : Binding → Option String
  | .nodeOutput m _ => some m
  | .nodeOutputSub m _ _ => some m
  | _ => none

/-- Implicit dependency edges: one edge `(a, b)` for each input of `b` bound to
an output of node `a`. -/
def refEdges (nodes : List TaskNode) : List (String × String) :=
  nodes.flatMap (fun n => n.inputs.filterMap (fun p =>
    (bindingRefTarget p.2).map (fun m => (m, n.id))))

/-- All dependency edges before deduplication. -/
def rawEdges (nodes : List TaskNode) : List (String × String) :=
  needsEdges nodes ++ refEdges nodes

/-- Modelled from the spec: the dependency edges are the union of explicit
`needs` edges and implicit input-reference edges, "unioned without
duplication" (section 4.1). -/
def edgesOf (nodes : List TaskNode) : List (String × String) :=
  (rawEdges nodes).dedup

/-- The node found for an id, if any. -/
def findNode (nodes : List TaskNode) (i : String) : Option TaskNode :=
  nodes.find? (fun n => n.id == i)

/-- The template contract found for a name, if any. -/
def findTemplate (ts : List TemplateDecl) (t : String) : Option TemplateDecl :=
  ts.find? (fun d => d.name == t)

/-- Whether node `nodeId` exists and declares an output named `out`. -/
def nodeDeclaresOutput (nodes : List TaskNode) (nodeId out : String) : Bool :=
  match findNode nodes nodeId with
  | some n => n.outputs.any (fun o => o.outName == out)
  | none => false

/-- Whether a binding's node-output reference resolves inside the graph. -/
def bindingResolves (nodes : List TaskNode) (b : Binding) : Bool :=
  match b with
  | .nodeOutput m out => nodeDeclaresOutput nodes m out
  | .nodeOutputSub m out _ => nodeDeclaresOutput nodes m out
  | _ => true

/-- Whether each declared output of `n` names an output its template has. -/
def ownOutputsResolve (ts : List TemplateDecl) (n : TaskNode) : Bool :=
  match findTemplate ts n.template with
  | some t => n.outputs.all (fun o => t.outputs.contains o.outName)
  | none => false

/-- Whether all references made by node `n` resolve: its `needs` name existing
nodes, its input bindings reference existing node outputs, its own outputs
exist on its template, and its loop source (if any) resolves. -/
def nodeResolves (ts : List TemplateDecl) (nodes : List TaskNode) (n : TaskNode) : Bool :=
  n.needs.all (fun m => (findNode nodes m).isSome) &&
  n.inputs.all (fun p => bindingResolves nodes p.2) &&
  ownOutputsResolve ts n &&
  (match n.loopSource with
   | some lp => nodeDeclaresOutput nodes lp.1 lp.2
   | none => true)

/-- Whether every node of the graph resolves all of its references. -/
def resolveOkB (ts : List TemplateDecl) (nodes : List TaskNode) : Bool :=
  nodes.all (nodeResolves ts nodes)

/-- Whether `v` has no incoming edge from a node still in `remaining`. -/
def noIncoming (edges : List (String × String)) (remaining : List String) (v : String) : Bool :=
  remaining.all (fun u => decide ((u, v) ∉ edges))

/-- Modelled from the spec: Kahn-style topological sort with declaration-order
tie-break (section 4.1).  Repeatedly removes the first remaining node with no
incoming edge from the remaining set; returns `none` when stuck (a cycle). -/
def kahn (edges : List (String × String)) : Nat → List String → Option (List String)
  | _, [] => some []
  | 0, _ :: _ => none
  | fuel + 1, v :: rest =>
    match (v :: rest).find? (noIncoming edges (v :: rest)) with
    | none => none
    | some w => (kahn edges fuel ((v :: rest).erase w)).map (fun order => w :: order)

/-- Modelled from the spec: dependency-graph construction (section 4.1).
Checks id uniqueness, then reference resolution, then performs topological
sorting; a stuck sort is a `CycleError`. -/
def buildGraph (ts : List TemplateDecl) (nodes : List TaskNode) :
    Except BuildError (List String) :=
  if (nodeIds nodes).Nodup then
    if resolveOkB ts nodes then
      match kahn (edgesOf nodes) nodes.length (nodeIds nodes) with
      | some order => .ok order
      | none => .error .CycleError
    else .error .UnresolvedReferenceError
  else .error .DuplicateNodeError

/-! ### Cycles and topological-order facts -/

/-- Whether consecutive elements of a list are all edges. -/
def chainB (edges : List (String × String)) : List String → Bool
  | a :: b :: rest => decide ((a, b) ∈ edges) && chainB edges (b :: rest)
  | _ => true

/-- A cycle: a list of at least two vertices whose consecutive pairs are edges
and whose first and last vertices coincide. -/
def IsCycle (edges : List (String × String)) (p : List String) : Prop :=
  2 ≤ p.length ∧ chainB edges p = true ∧ p.head? = p.getLast?

/-- Whether the edge list has a cycle. -/
def HasCycle (edges : List (String × String)) : Prop :=
  ∃ p, IsCycle edges p

instance instDecidableIsCycle (edges : List (String × String)) (p : List String) :
    Decidable (IsCycle edges p) := by
  unfold IsCycle
  infer_instance

theorem chainB_cons {edges : List (String × String)} {a b : String} {rest : List String} :
    chainB edges (a :: b :: rest) = true ↔
      (a, b) ∈ edges ∧ chainB edges (b :: rest) = true := by
  simp [chainB]

theorem noIncoming_spec {edges : List (String × String)} {rem : List String} {v : String}
    (h : noIncoming edges rem v = true) : ∀ u ∈ rem, (u, v) ∉ edges := by
  intro u hu
  have := List.all_eq_true.mp h u hu
  simpa using this

theorem kahn_perm {edges : List (String × String)} :
    ∀ {fuel : Nat} {remaining order : List String},
      kahn edges fuel remaining = some order → order.Perm remaining := by
  intro fuel
  induction fuel with
  | zero =>
    intro remaining order h
    cases remaining with
    | nil => simp [kahn] at h; simp [← h]
    | cons v rest => simp [kahn] at h
  | succ fuel ih =>
    intro remaining order h
    cases remaining with
    | nil => simp [kahn] at h; simp [← h]
    | cons v rest =>
      simp only [kahn] at h
      cases hfind : (v :: rest).find? (noIncoming edges (v :: rest)) with
      | none => rw [hfind] at h; cases h
      | some w =>
        rw [hfind] at h
        rw [Option.map_eq_some'] at h
        obtain ⟨order', h1, h2⟩ := h
        subst h2
        have hw : w ∈ v :: rest := List.mem_of_find?_eq_some hfind
        exact ((ih h1).cons w).trans (List.perm_cons_erase hw).symm

theorem kahn_indexOf {edges : List (String × String)} :
    ∀ {fuel : Nat} {remaining order : List String},
      kahn edges fuel remaining = some order → remaining.Nodup →
      ∀ u v : String, (u, v) ∈ edges → u ∈ remaining → v ∈ remaining →
        order.indexOf u < order.indexOf v := by
  intro fuel
  induction fuel with
  | zero =>
    intro remaining order h hnd u v he hu hv
    cases remaining with
    | nil => cases hu
    | cons a rest => simp [kahn] at h
  | succ fuel ih =>
    intro remaining order h hnd u v he hu hv
    cases remaining with
    | nil => cases hu
    | cons a rest =>
      simp only [kahn] at h
      cases hfind : (a :: rest).find? (noIncoming edges (a :: rest)) with
      | none => rw [hfind] at h; cases h
      | some w =>
        rw [hfind] at h
        rw [Option.map_eq_some'] at h
        obtain ⟨order', h1, h2⟩ := h
        subst h2
        have hwmem : w ∈ a :: rest := List.mem_of_find?_eq_some hfind
        have hwno := noIncoming_spec (List.find?_some hfind)
        have hvw : v ≠ w := by
          rintro rfl
          exact hwno u hu he
        have hv' : v ∈ (a :: rest).erase w := (List.mem_erase_of_ne hvw).mpr hv
        rw [List.indexOf_cons_ne _ (Ne.symm hvw)]
        by_cases huw : u = w
        · subst huw
          rw [List.indexOf_cons_self]
          exact Nat.succ_pos _
        · have hu' : u ∈ (a :: rest).erase w := (List.mem_erase_of_ne huw).mpr hu
          rw [List.indexOf_cons_ne _ (Ne.symm huw)]
          exact Nat.succ_lt_succ (ih h1 (hnd.erase w) u v he hu' hv')

theorem chain_indexOf_lt {edges : List (String × String)} {order : List String}
    (hmono : ∀ e ∈ edges, order.indexOf e.1 < order.indexOf e.2) :
    ∀ (rest : List String) (a b : String), chainB edges (a :: b :: rest) = true →
      order.indexOf a < order.indexOf ((b :: rest).getLast (by simp)) := by
  intro rest
  induction rest with
  | nil =>
    intro a b hc
    simpa using hmono (a, b) (chainB_cons.mp hc).1
  | cons c rest ih =>
    intro a b hc
    obtain ⟨h1, h2⟩ := chainB_cons.mp hc
    have hab := hmono (a, b) h1
    have hbl := ih b c h2
    have hlast : (b :: c :: rest).getLast (by simp) = (c :: rest).getLast (by simp) :=
      List.getLast_cons (by simp)
    rw [hlast]
    exact hab.trans hbl

theorem not_hasCycle_of_mono {edges : List (String × String)} {order : List String}
    (hmono : ∀ e ∈ edges, order.indexOf e.1 < order.indexOf e.2) :
    ¬ HasCycle edges := by
  rintro ⟨p, hlen, hchain, hhl⟩
  match p, hlen, hchain, hhl with
  | a :: b :: rest, _, hchain, hhl =>
    have hlt := chain_indexOf_lt hmono rest a b hchain
    have hhead : (a :: b :: rest).head? = some a := rfl
    have hlast : (a :: b :: rest).getLast? =
        some ((b :: rest).getLast (by simp)) := by
      rw [List.getLast?_eq_getLast _ (by simp)]
      exact congrArg some (List.getLast_cons (by simp))
    rw [hhead, hlast] at hhl
    have : a = (b :: rest).getLast (by simp) := Option.some.inj hhl
    rw [← this] at hlt
    exact lt_irrefl _ hlt

theorem kahn_none_stuck {edges : List (String × String)} :
    ∀ {fuel : Nat} {remaining : List String}, remaining.length ≤ fuel →
      kahn edges fuel remaining = none →
      ∃ rem : List String, rem ≠ [] ∧ rem ⊆ remaining ∧
        ∀ v ∈ rem, ∃ u ∈ rem, (u, v) ∈ edges := by
  intro fuel
  induction fuel with
  | zero =>
    intro remaining hlen h
    cases remaining with
    | nil => simp [kahn] at h
    | cons a rest => simp at hlen
  | succ fuel ih =>
    intro remaining hlen h
    cases remaining with
    | nil => simp [kahn] at h
    | cons a rest =>
      simp only [kahn] at h
      cases hfind : (a :: rest).find? (noIncoming edges (a :: rest)) with
      | none =>
        refine ⟨a :: rest, by simp, fun x hx => hx, ?_⟩
        intro v hv
        have hno := List.find?_eq_none.mp hfind v hv
        have : ¬ (∀ u ∈ a :: rest, (u, v) ∉ edges) := by
          intro hall
          exact hno (List.all_eq_true.mpr (fun u hu => by simpa using hall u hu))
        push_neg at this
        obtain ⟨u, hu, he⟩ := this
        exact ⟨u, hu, he⟩
      | some w =>
        rw [hfind] at h
        rw [Option.map_eq_none'] at h
        have hwmem : w ∈ a :: rest := List.mem_of_find?_eq_some hfind
        have hlen' : ((a :: rest).erase w).length ≤ fuel := by
          rw [List.length_erase_of_mem hwmem]
          simp only [List.length_cons] at hlen ⊢
          omega
        obtain ⟨rem, h1, h2, h3⟩ := ih hlen' h
        exact ⟨rem, h1, fun x hx => List.erase_subset _ _ (h2 hx), h3⟩

/-- The list of vertices `g (i + k), ..., g (i + 1), g i`, used to extract an
explicit cycle from an iterated-predecessor function. -/
def iterChain (g : Nat → String) (i : Nat) : Nat → List String
  | 0 => [g i]
  | k + 1 => g (i + k + 1) :: iterChain g i k

theorem iterChain_length (g : Nat → String) (i : Nat) :
    ∀ k, (iterChain g i k).length = k + 1 := by
  intro k
  induction k with
  | zero => rfl
  | succ k ih => simp [iterChain, ih]

theorem iterChain_head? (g : Nat → String) (i : Nat) :
    ∀ k, (iterChain g i k).head? = some (g (i + k)) := by
  intro k
  cases k with
  | zero => rfl
  | succ k => rfl

theorem iterChain_getLast? (g : Nat → String) (i : Nat) :
    ∀ k, (iterChain g i k).getLast? = some (g i) := by
  intro k
  induction k with
  | zero => rfl
  | succ k ih =>
    cases hk : iterChain g i k with
    | nil =>
      have := iterChain_length g i k
      rw [hk] at this
      simp at this
    | cons x xs =>
      simp only [iterChain, hk]
      rw [List.getLast?_cons_cons]
      rw [← hk, ih]

theorem iterChain_chainB {edges : List (String × String)} {g : Nat → String}
    (hstep : ∀ n, (g (n + 1), g n) ∈ edges) (i : Nat) :
    ∀ k, chainB edges (iterChain g i k) = true := by
  intro k
  induction k with
  | zero => rfl
  | succ k ih =>
    cases k with
    | zero =>
      simp only [iterChain]
      rw [chainB_cons]
      exact ⟨hstep i, rfl⟩
    | succ k' =>
      simp only [iterChain] at ih ⊢
      rw [chainB_cons]
      refine ⟨?_, ih⟩
      have : i + k' + 1 + 1 = (i + (k' + 1)) + 1 := by omega
      rw [← this] at *
      exact hstep (i + k' + 1)

theorem stuck_hasCycle {edges : List (String × String)} {rem : List String}
    (hne : rem ≠ []) (hblock : ∀ v ∈ rem, ∃ u ∈ rem, (u, v) ∈ edges) :
    HasCycle edges := by
  classical
  have hf : ∀ v : {x : String // x ∈ rem}, ∃ u : {x : String // x ∈ rem}, (u.1, v.1) ∈ edges := by
    rintro ⟨v, hv⟩
    obtain ⟨u, hu, he⟩ := hblock v hv
    exact ⟨⟨u, hu⟩, he⟩
  obtain ⟨v0, hv0⟩ := List.exists_mem_of_ne_nil rem hne
  let g : Nat → {x : String // x ∈ rem} := fun n =>
    Nat.rec ⟨v0, hv0⟩ (fun _ p => (hf p).choose) n
  have hstep : ∀ n, ((g (n + 1)).1, (g n).1) ∈ edges := fun n => (hf (g n)).choose_spec
  have hmaps : ∀ i : Fin (rem.length + 1), (g i.1).1 ∈ rem.toFinset := by
    intro i
    simpa using (g i.1).2
  have hcard : rem.toFinset.card < (Finset.univ : Finset (Fin (rem.length + 1))).card := by
    rw [Finset.card_univ, Fintype.card_fin]
    exact Nat.lt_succ_of_le rem.toFinset_card_le
  obtain ⟨i, _, j, _, hij, hgij⟩ :=
    Finset.exists_ne_map_eq_of_card_lt_of_maps_to hcard (fun i _ => hmaps i)
  rcases Nat.lt_or_ge i.1 j.1 with hlt | hge
  · refine ⟨iterChain (fun n => (g n).1) i.1 (j.1 - i.1), ?_, ?_, ?_⟩
    · rw [iterChain_length]; omega
    · exact iterChain_chainB hstep i.1 (j.1 - i.1)
    · rw [iterChain_head?, iterChain_getLast?]
      have : i.1 + (j.1 - i.1) = j.1 := by omega
      rw [this, hgij]
  · have hlt : j.1 < i.1 := by
      rcases Nat.lt_or_ge j.1 i.1 with h | h
      · exact h
      · exact absurd (Fin.ext (Nat.le_antisymm h hge)) hij
    refine ⟨iterChain (fun n => (g n).1) j.1 (i.1 - j.1), ?_, ?_, ?_⟩
    · rw [iterChain_length]; omega
    · exact iterChain_chainB hstep j.1 (i.1 - j.1)
    · rw [iterChain_head?, iterChain_getLast?]
      have : j.1 + (i.1 - j.1) = i.1 := by omega
      rw [this, hgij]

/-! ### Resolution facts and claim C1 -/

theorem findNode_isSome_mem {nodes : List TaskNode} {m : String}
    (h : (findNode nodes m).isSome = true) : m ∈ nodeIds nodes := by
  rw [findNode] at h
  cases hf : nodes.find? (fun n => n.id == m) with
  | none => rw [hf] at h; cases h
  | some n =>
    have hmem := List.mem_of_find?_eq_some hf
    have hid : n.id = m := by simpa using List.find?_some hf
    rw [nodeIds, ← hid]
    exact List.mem_map_of_mem _ hmem

theorem nodeDeclares_mem {nodes : List TaskNode} {m out : String}
    (h : nodeDeclaresOutput nodes m out = true) : m ∈ nodeIds nodes := by
  rw [nodeDeclaresOutput] at h
  cases hf : findNode nodes m with
  | none => rw [hf] at h; cases h
  | some n => exact findNode_isSome_mem (by rw [hf]; rfl)

theorem mem_needsEdges {nodes : List TaskNode} {e : String × String} :
    e ∈ needsEdges nodes ↔ ∃ n ∈ nodes, e.1 ∈ n.needs ∧ e.2 = n.id := by
  constructor
  · intro h
    rw [needsEdges, List.mem_flatMap] at h
    obtain ⟨n, hn, hmap⟩ := h
    rw [List.mem_map] at hmap
    obtain ⟨m, hm, rfl⟩ := hmap
    exact ⟨n, hn, hm, rfl⟩
  · rintro ⟨n, hn, hm, he2⟩
    rw [needsEdges, List.mem_flatMap]
    refine ⟨n, hn, ?_⟩
    rw [List.mem_map]
    refine ⟨e.1, hm, ?_⟩
    rw [← he2]

theorem mem_refEdges {nodes : List TaskNode} {e : String × String} :
    e ∈ refEdges nodes ↔
      ∃ n ∈ nodes, (∃ p ∈ n.inputs, bindingRefTarget p.2 = some e.1) ∧ e.2 = n.id := by
  constructor
  · intro h
    rw [refEdges, List.mem_flatMap] at h
    obtain ⟨n, hn, hmap⟩ := h
    rw [List.mem_filterMap] at hmap
    obtain ⟨p, hp, hsome⟩ := hmap
    rw [Option.map_eq_some'] at hsome
    obtain ⟨m, hm, he⟩ := hsome
    refine ⟨n, hn, ⟨p, hp, ?_⟩, ?_⟩
    · rw [hm, ← he]
    · rw [← he]
  · rintro ⟨n, hn, ⟨p, hp, htgt⟩, he2⟩
    rw [refEdges, List.mem_flatMap]
    refine ⟨n, hn, ?_⟩
    rw [List.mem_filterMap]
    refine ⟨p, hp, ?_⟩
    rw [htgt]
    simp only [Option.map_some']
    rw [← he2]

theorem nodeResolves_parts {ts : List TemplateDecl} {nodes : List TaskNode} {n : TaskNode}
    (h : nodeResolves ts nodes n = true) :
    (∀ m ∈ n.needs, (findNode nodes m).isSome = true) ∧
      (∀ p ∈ n.inputs, bindingResolves nodes p.2 = true) := by
  rw [nodeResolves] at h
  simp only [Bool.and_eq_true, List.all_eq_true] at h
  exact ⟨h.1.1.1, h.1.1.2⟩

theorem edges_endpoints {ts : List TemplateDecl} {nodes : List TaskNode}
    (hres : resolveOkB ts nodes = true) :
    ∀ e ∈ edgesOf nodes, e.1 ∈ nodeIds nodes ∧ e.2 ∈ nodeIds nodes := by
  intro e he
  rw [edgesOf, List.mem_dedup, rawEdges, List.mem_append] at he
  have hall : ∀ n ∈ nodes, nodeResolves ts nodes n = true :=
    List.all_eq_true.mp hres
  cases he with
  | inl h =>
    obtain ⟨n, hn, hm, he2⟩ := mem_needsEdges.mp h
    refine ⟨findNode_isSome_mem ((nodeResolves_parts (hall n hn)).1 e.1 hm), ?_⟩
    rw [he2, nodeIds]
    exact List.mem_map_of_mem _ hn
  | inr h =>
    obtain ⟨n, hn, ⟨p, hp, htgt⟩, he2⟩ := mem_refEdges.mp h
    have hbind := (nodeResolves_parts (hall n hn)).2 p hp
    obtain ⟨pname, pb⟩ := p
    refine ⟨?_, by rw [he2, nodeIds]; exact List.mem_map_of_mem _ hn⟩
    cases pb with
    | workflowInput s => simp [bindingRefTarget] at htgt
    | literal s => simp [bindingRefTarget] at htgt
    | nodeOutput m out =>
      simp only [bindingRefTarget] at htgt
      simp only [bindingResolves] at hbind
      rw [← Option.some.inj htgt]
      exact nodeDeclares_mem hbind
    | nodeOutputSub m out sp =>
      simp only [bindingRefTarget] at htgt
      simp only [bindingResolves] at hbind
      rw [← Option.some.inj htgt]
      exact nodeDeclares_mem hbind

theorem entry_kahn_eval :
    kahn (edgesOf AnnualRadiationEntryPoint) AnnualRadiationEntryPoint.length
      (nodeIds AnnualRadiationEntryPoint) = some (nodeIds AnnualRadiationEntryPoint) := rfl

theorem entry_nodup : (nodeIds AnnualRadiationEntryPoint).Nodup := by decide

theorem entry_resolveOk : resolveOkB entryTemplates AnnualRadiationEntryPoint = true := by
  decide

theorem entry_buildGraph_ok :
    buildGraph entryTemplates AnnualRadiationEntryPoint =
      .ok (nodeIds AnnualRadiationEntryPoint) := by
  rw [buildGraph, if_pos entry_nodup, if_pos entry_resolveOk, entry_kahn_eval]

theorem entry_edge_mono :
    ∀ e ∈ edgesOf AnnualRadiationEntryPoint,
      (nodeIds AnnualRadiationEntryPoint).indexOf e.1 <
        (nodeIds AnnualRadiationEntryPoint).indexOf e.2 := by
  intro e he
  obtain ⟨h1, h2⟩ := edges_endpoints entry_resolveOk e he
  exact kahn_indexOf entry_kahn_eval entry_nodup e.1 e.2 (by simpa using he) h1 h2

/-- A minimal two-node cyclic declaration set: `A` needs `B` and `B` needs `A`. -/
def cycNodeA : TaskNode := ⟨"A", "T", [], [], ["B"], none, none, []⟩

/-- The second node of the two-node cyclic declaration set. -/
def cycNodeB : TaskNode := ⟨"B", "T", [], [], ["A"], none, none, []⟩

/-- The template list for the two-node cyclic declaration set. -/
def cycTemplates : List TemplateDecl := [⟨"T", []⟩]

/-- C1: for every task-node declaration set whose explicit `needs` edges and
implicit input-reference edges form no cycle, graph construction succeeds and
yields a topological ordering consistent with every edge; for every node set in
which some edge completes a cycle, construction fails with `CycleError`.  The
eight tasks of `AnnualRadiationEntryPoint` are cycle-free and build in
declaration order. -/
theorem C1_graph_construction :
    (∀ (ts : List TemplateDecl) (nodes : List TaskNode),
        (nodeIds nodes).Nodup → resolveOkB ts nodes = true →
        ¬ HasCycle (edgesOf nodes) →
        ∃ order : List String, buildGraph ts nodes = .ok order ∧
          order.Perm (nodeIds nodes) ∧
          ∀ e ∈ edgesOf nodes, order.indexOf e.1 < order.indexOf e.2)
    ∧ (∀ (ts : List TemplateDecl) (nodes : List TaskNode),
        (nodeIds nodes).Nodup → resolveOkB ts nodes = true →
        HasCycle (edgesOf nodes) →
        buildGraph ts nodes = .error .CycleError)
    ∧ buildGraph entryTemplates AnnualRadiationEntryPoint =
        .ok (nodeIds AnnualRadiationEntryPoint)
    ∧ ¬ HasCycle (edgesOf AnnualRadiationEntryPoint) := by
  have hlen : ∀ nodes : List TaskNode, (nodeIds nodes).length ≤ nodes.length := by
    intro nodes
    rw [nodeIds, List.length_map]
  have hmain : ∀ (ts : List TemplateDecl) (nodes : List TaskNode),
      (nodeIds nodes).Nodup → resolveOkB ts nodes = true →
      (¬ HasCycle (edgesOf nodes) →
        ∃ order : List String, buildGraph ts nodes = .ok order ∧
          order.Perm (nodeIds nodes) ∧
          ∀ e ∈ edgesOf nodes, order.indexOf e.1 < order.indexOf e.2) ∧
      (HasCycle (edgesOf nodes) → buildGraph ts nodes = .error .CycleError) := by
    intro ts nodes hnd hres
    cases hk : kahn (edgesOf nodes) nodes.length (nodeIds nodes) with
    | none =>
      obtain ⟨rem, hne, hsub, hblock⟩ := kahn_none_stuck (hlen nodes) hk
      have hcyc : HasCycle (edgesOf nodes) := stuck_hasCycle hne hblock
      constructor
      · intro hnc; exact absurd hcyc hnc
      · intro _
        rw [buildGraph, if_pos hnd, if_pos hres, hk]
    | some order =>
      have hmono : ∀ e ∈ edgesOf nodes, order.indexOf e.1 < order.indexOf e.2 := by
        intro e he
        obtain ⟨h1, h2⟩ := edges_endpoints hres e he
        exact kahn_indexOf hk hnd e.1 e.2 (by simpa using he) h1 h2
      constructor
      · intro _
        refine ⟨order, ?_, kahn_perm hk, hmono⟩
        rw [buildGraph, if_pos hnd, if_pos hres, hk]
      · intro hcyc
        exact absurd hcyc (not_hasCycle_of_mono hmono)

  exact ⟨fun ts nodes h1 h2 => (hmain ts nodes h1 h2).1,
         fun ts nodes h1 h2 => (hmain ts nodes h1 h2).2,
         entry_buildGraph_ok, not_hasCycle_of_mono entry_edge_mono⟩

/-- Witness for C1: the cycle-free entry point builds, and the two-node cycle
`A needs B, B needs A` fails construction with `CycleError`. -/
theorem C1_graph_construction_witness :
    buildGraph entryTemplates AnnualRadiationEntryPoint =
        .ok (nodeIds AnnualRadiationEntryPoint) ∧
      buildGraph cycTemplates [cycNodeA, cycNodeB] = .error .CycleError :=
  ⟨C1_graph_construction.2.2.1,
   C1_graph_construction.2.1 cycTemplates [cycNodeA, cycNodeB] (by decide) (by decide)
     ⟨["A", "B", "A"], by decide⟩⟩

/-! ### Claims C3 and C5 -/

/-- The number of occurrences of edge `e` in the edge list `l`. -/
def edgeCount (l : List (String × String)) (e : String × String) : Nat :=
  (l.filter (fun x => decide (x = e))).length

theorem edgeCount_of_nodup {l : List (String × String)} {e : String × String}
    (hnd : l.Nodup) : edgeCount l e = if e ∈ l then 1 else 0 := by
  induction l with
  | nil => simp [edgeCount]
  | cons a l ih =>
    obtain ⟨hna, hl⟩ := List.nodup_cons.mp hnd
    by_cases he : a = e
    · subst he
      have h0 : edgeCount l a = 0 := by
        rw [ih hl, if_neg hna]
      rw [edgeCount, List.filter_cons, if_pos (by simp), List.length_cons, ← edgeCount,
        h0, if_pos (List.mem_cons_self a l)]
    · have hmem : e ∈ a :: l ↔ e ∈ l := by
        constructor
        · intro h
          rcases List.mem_cons.mp h with h1 | h1
          · exact absurd h1.symm he
          · exact h1
        · exact fun h => List.mem_cons_of_mem a h
      rw [edgeCount, List.filter_cons, if_neg (by simp [he]), ← edgeCount, ih hl]
      by_cases hel : e ∈ l
      · rw [if_pos hel, if_pos (hmem.mpr hel)]
      · rw [if_neg hel, if_neg (fun hh => hel (hmem.mp hh))]

/-- C3: the dependency graph contains each edge at most once, and exactly once
precisely when it is an explicit `needs` edge, an implicit input-reference
edge, or both; in particular each of the six needed-and-referenced producers of
`annual_radiation_raytracing` contributes a single edge. -/
theorem C3_edge_union :
    (∀ (nodes : List TaskNode) (e : String × String),
        edgeCount (edgesOf nodes) e ≤ 1 ∧
          (edgeCount (edgesOf nodes) e = 1 ↔
            e ∈ needsEdges nodes ∨ e ∈ refEdges nodes))
    ∧ (annual_radiation_raytracing.needs.all (fun m =>
        edgeCount (edgesOf AnnualRadiationEntryPoint) (m, "annual_radiation_raytracing")
          == 1)) = true := by
  refine ⟨?_, by decide⟩
  intro nodes e
  have hcnt : edgeCount (edgesOf nodes) e = if e ∈ rawEdges nodes then 1 else 0 := by
    rw [edgesOf, edgeCount_of_nodup (List.nodup_dedup _)]
    by_cases hm : e ∈ rawEdges nodes
    · rw [if_pos hm, if_pos (List.mem_dedup.mpr hm)]
    · rw [if_neg hm, if_neg (fun h => hm (List.mem_dedup.mp h))]
  rw [hcnt]
  by_cases hm : e ∈ rawEdges nodes
  · rw [if_pos hm]
    rw [rawEdges, List.mem_append] at hm
    exact ⟨le_refl 1, fun _ => hm, fun _ => rfl⟩
  · rw [if_neg hm]
    refine ⟨Nat.zero_le 1, ?_, ?_⟩
    · intro h; cases h
    · intro hor
      exact absurd (by rw [rawEdges, List.mem_append]; exact hor) hm

/-- An unresolved declaration: a single node whose input references a node id
that does not exist in the graph. -/
def unresolvedNode : TaskNode :=
  ⟨"X", "T", [("inp", .nodeOutput "ghost" "out")], [], [], none, none, []⟩

/-- C5: graph construction fails with `UnresolvedReferenceError` whenever some
declaration references a node id or output name missing from the graph; the
`create_octree` declaration, whose output artifact is written through
`CreateOctreeWithSky` while its template is `CreateOctree`, resolves, and the
entry point does not fail with `UnresolvedReferenceError`. -/
theorem C5_unresolved_reference :
    (∀ (ts : List TemplateDecl) (nodes : List TaskNode),
        (nodeIds nodes).Nodup → resolveOkB ts nodes = false →
        buildGraph ts nodes = .error .UnresolvedReferenceError)
    ∧ nodeResolves entryTemplates AnnualRadiationEntryPoint create_octree = true
    ∧ buildGraph entryTemplates AnnualRadiationEntryPoint ≠
        .error .UnresolvedReferenceError := by
  refine ⟨?_, by decide, ?_⟩
  · intro ts nodes hnd hres
    rw [buildGraph, if_pos hnd, if_neg (by simp [hres])]
  · rw [entry_buildGraph_ok]
    simp

/-- Witness for C5: a node referencing the nonexistent node `ghost` makes
construction fail with `UnresolvedReferenceError`. -/
theorem C5_unresolved_reference_witness :
    buildGraph cycTemplates [unresolvedNode] = .error .UnresolvedReferenceError :=
  C5_unresolved_reference.1 cycTemplates [unresolvedNode] (by decide) (by decide)

/-! ### Loop expansion (modelled from the spec, section 4.2) -/

/-- Modelled from the spec: a Loop Item, one element of the discovered
sensor-grid collection (section 3: "name + item count + file path"); only the
`name` field drives placeholder substitution. -/
structure LoopItem where
  name : String
  count : Nat
  path : String
deriving DecidableEq

/-- Segments of `s` split on every occurrence of the pattern `pat`, with
explicit fuel (one unit per character suffices). -/
def splitOnPat (pat : List Char) : Nat → List Char → List (List Char)
  | 0, s => [s]
  | fuel + 1, s =>
    if !pat.isEmpty && pat.isPrefixOf s then
      [] :: splitOnPat pat fuel (s.drop pat.length)
    else
      match s with
      | [] => [[]]
      | c :: rest =>
        match splitOnPat pat fuel rest with
        | [] => [[c]]
        | seg :: segs => (c :: seg) :: segs

/-- Modelled from the spec: the placeholder-substitution function (section 9,
"a small, explicit placeholder-substitution function"): every occurrence of
the item-name placeholder in the pattern is replaced by `name`. -/
def substItemName (pat : String) (name : String) : String :=
  ⟨List.intercalate name.data (splitOnPat itemNamePlaceholder.data pat.data.length pat.data)⟩

/-- The id of a loop instance, derived from the template node's id and the
item's name. -/
def instanceId (tmplId : String) (it : LoopItem) : String :=
  tmplId ++ "_" ++ it.name

/-- Rewrite a parameter binding with the resolved sub-path of a loop item. -/
def rewriteBinding (it : LoopItem) (sp : String) : Binding → Binding
  | .nodeOutput m o => .nodeOutputSub m o (substItemName sp it.name)
  | .nodeOutputSub m o _ => .nodeOutputSub m o (substItemName sp it.name)
  | b => b

/-- Modelled from the spec: instantiation of one loop item (section 4.2): a
fresh instance id, the resolved sub-folder, the `sub_paths` parameters
rewritten, and every other input inherited unchanged. -/
def expandOne (tmpl : TaskNode) (it : LoopItem) : TaskNode :=
  { tmpl with
    id := instanceId tmpl.id it
    inputs := tmpl.inputs.map (fun p =>
      match tmpl.subPaths.lookup p.1 with
      | some sp => (p.1, rewriteBinding it sp p.2)
      | none => p)
    subFolder := tmpl.subFolder.map (fun sf => substItemName sf it.name)
    loopSource := none
    subPaths := [] }

/-- Modelled from the spec: loop expansion over the discovered collection; an
instance-id collision is a fatal `DuplicateNodeError` (section 4.2). -/
def expandLoop (tmpl : TaskNode) (items : List LoopItem) :
    Except BuildError (List TaskNode) :=
  let insts := items.map (expandOne tmpl)
  if (insts.map (·.id)).Nodup then .ok insts else .error .DuplicateNodeError

/-- Modelled from the spec: a dependent waiting on "all instances complete" is
satisfied exactly when every instance has succeeded (section 4.2). -/
def loopDependentSatisfied (insts : List TaskNode) (succeeded : String → Bool) : Bool :=
  insts.all (fun n => succeeded n.id)

theorem string_mk_append (s t : String) : String.mk (s.data ++ t.data) = s ++ t := rfl

theorem string_data_inj {a b : String} (h : a.data = b.data) : a = b := by
  cases a
  cases b
  exact congrArg String.mk h

theorem string_append_left_inj (pre : String) :
    Function.Injective (fun s : String => pre ++ s) := by
  intro a b h
  have hd : pre.data ++ a.data = pre.data ++ b.data := by
    have := congrArg String.data h
    simpa using this
  exact string_data_inj (List.append_cancel_left hd)

theorem substItemName_subFolder (name : String) :
    substItemName ("initial_results/" ++ itemNamePlaceholder) name =
      "initial_results/" ++ name := by
  rw [substItemName]
  rw [show splitOnPat itemNamePlaceholder.data
        ("initial_results/" ++ itemNamePlaceholder).data.length
        ("initial_results/" ++ itemNamePlaceholder).data =
      ["initial_results/".data, []] from rfl]
  rw [show List.intercalate name.data ["initial_results/".data, []] =
      "initial_results/".data ++ name.data by
    simp [List.intercalate, List.intersperse]]
  exact string_mk_append _ name

theorem substItemName_subPath (name : String) :
    substItemName ("grid/" ++ itemNamePlaceholder ++ ".pts") name =
      "grid/" ++ name ++ ".pts" := by
  rw [substItemName]
  rw [show splitOnPat itemNamePlaceholder.data
        ("grid/" ++ itemNamePlaceholder ++ ".pts").data.length
        ("grid/" ++ itemNamePlaceholder ++ ".pts").data =
      ["grid/".data, ".pts".data] from rfl]
  rw [show List.intercalate name.data ["grid/".data, ".pts".data] =
      ("grid/".data ++ name.data) ++ ".pts".data by
    simp [List.intercalate, List.intersperse]]
  rw [show ("grid/".data ++ name.data) ++ ".pts".data =
      ("grid/" ++ name).data ++ ".pts".data from rfl]
  exact string_mk_append _ _

theorem expandOne_subFolder (it : LoopItem) :
    (expandOne annual_radiation_raytracing it).subFolder =
      some ("initial_results/" ++ it.name) := by
  show annual_radiation_raytracing.subFolder.map
      (fun sf => substItemName sf it.name) = _
  rw [show annual_radiation_raytracing.subFolder =
      some ("initial_results/" ++ itemNamePlaceholder) from rfl]
  rw [Option.map_some']
  rw [substItemName_subFolder]

theorem expandOne_id (tmpl : TaskNode) (it : LoopItem) :
    (expandOne tmpl it).id = tmpl.id ++ "_" ++ it.name := rfl

/-- C2 (amended: the discovered item names must be pairwise distinct, else
expansion fails with `DuplicateNodeError`): expansion of
`annual_radiation_raytracing` over a collection of size N yields exactly N
instances with pairwise-distinct resolved sub-folders, size 0 yields zero
instances without failure, and an all-instances dependent is satisfied
trivially by the empty instance list. -/
theorem C2_loop_expansion :
    (∀ items : List LoopItem, (items.map LoopItem.name).Nodup →
        expandLoop annual_radiation_raytracing items =
          .ok (items.map (expandOne annual_radiation_raytracing)) ∧
        (items.map (expandOne annual_radiation_raytracing)).length = items.length ∧
        ((items.map (expandOne annual_radiation_raytracing)).map (·.subFolder)).Nodup ∧
        ∀ it ∈ items, (expandOne annual_radiation_raytracing it).subFolder =
          some ("initial_results/" ++ it.name))
    ∧ expandLoop annual_radiation_raytracing [] = .ok []
    ∧ (∀ succeeded : String → Bool, loopDependentSatisfied [] succeeded = true) := by
  refine ⟨?_, rfl, fun _ => rfl⟩
  intro items hnd
  have hids : ((items.map (expandOne annual_radiation_raytracing)).map (·.id)) =
      (items.map LoopItem.name).map
        (fun s => "annual_radiation_raytracing" ++ "_" ++ s) := by
    rw [List.map_map, List.map_map]
    rfl
  have hidnd : ((items.map (expandOne annual_radiation_raytracing)).map (·.id)).Nodup := by
    rw [hids]
    refine hnd.map ?_
    intro a b h
    exact string_append_left_inj _ h
  have hsfs : ((items.map (expandOne annual_radiation_raytracing)).map (·.subFolder)) =
      (items.map LoopItem.name).map
        (fun s => some ("initial_results/" ++ s)) := by
    rw [List.map_map, List.map_map]
    refine List.map_congr_left ?_
    intro it _
    exact expandOne_subFolder it
  refine ⟨?_, List.length_map _ _, ?_, fun it _ => expandOne_subFolder it⟩
  · rw [expandLoop]
    simp only [if_pos hidnd]
  · rw [hsfs]
    refine hnd.map ?_
    intro a b h
    exact string_append_left_inj _ (Option.some.inj h)

/-- Counterexample for C2 as stated: a discovered collection with two items of
the same name makes expansion fail with `DuplicateNodeError` instead of
producing two instances with distinct sub-folders. -/
theorem C2_loop_expansion_counterexample :
    expandLoop annual_radiation_raytracing
      [⟨"grid", 1, "p"⟩, ⟨"grid", 1, "p"⟩] = .error .DuplicateNodeError := rfl

/-- Witness for C2: a two-item collection with distinct names expands to its
two instances. -/
theorem C2_loop_expansion_witness :
    expandLoop annual_radiation_raytracing [⟨"g1", 1, "a"⟩, ⟨"g2", 2, "b"⟩] =
      .ok ([⟨"g1", 1, "a"⟩, ⟨"g2", 2, "b"⟩].map (expandOne annual_radiation_raytracing)) :=
  (C2_loop_expansion.1 [⟨"g1", 1, "a"⟩, ⟨"g2", 2, "b"⟩] (by decide)).1

/-- C6: expansion of `annual_radiation_raytracing` rewrites exactly the
parameter named in `sub_paths` — `sensor_grid`, to the resolved per-item
point-file path — and every other input binding of the instance is identical
to the template node's binding; generally, any parameter not named in
`sub_paths` is inherited unchanged. -/
theorem C6_subpath_rewrite :
    (∀ it : LoopItem, (expandOne annual_radiation_raytracing it).inputs =
      [("sensor_count", .workflowInput "sensor_count"),
       ("radiance_parameters", .workflowInput "radiance_parameters"),
       ("octree_file_with_suns", .nodeOutput "create_octree_with_suns" "scene_file"),
       ("octree_file", .nodeOutput "create_octree" "scene_file"),
       ("grid_name", .literal itemNamePlaceholder),
       ("sensor_grid", .nodeOutputSub "create_rad_folder" "model_folder"
          ("grid/" ++ it.name ++ ".pts")),
       ("sky_dome", .nodeOutput "create_sky_dome" "sky_dome"),
       ("sky_matrix_indirect", .nodeOutput "create_indirect_sky" "sky_matrix"),
       ("sunpath", .nodeOutput "generate_sunpath" "sunpath"),
       ("sun_modifiers", .nodeOutput "generate_sunpath" "sun_modifiers")])
    ∧ (∀ (tmpl : TaskNode) (it : LoopItem) (p : String × Binding),
        p ∈ tmpl.inputs → tmpl.subPaths.lookup p.1 = none →
        p ∈ (expandOne tmpl it).inputs) := by
  constructor
  · intro it
    have h : (expandOne annual_radiation_raytracing it).inputs =
      [("sensor_count", .workflowInput "sensor_count"),
       ("radiance_parameters", .workflowInput "radiance_parameters"),
       ("octree_file_with_suns", .nodeOutput "create_octree_with_suns" "scene_file"),
       ("octree_file", .nodeOutput "create_octree" "scene_file"),
       ("grid_name", .literal itemNamePlaceholder),
       ("sensor_grid", .nodeOutputSub "create_rad_folder" "model_folder"
          (substItemName ("grid/" ++ itemNamePlaceholder ++ ".pts") it.name)),
       ("sky_dome", .nodeOutput "create_sky_dome" "sky_dome"),
       ("sky_matrix_indirect", .nodeOutput "create_indirect_sky" "sky_matrix"),
       ("sunpath", .nodeOutput "generate_sunpath" "sunpath"),
       ("sun_modifiers", .nodeOutput "generate_sunpath" "sun_modifiers")] := rfl
    rw [h, substItemName_subPath]
  · intro tmpl it p hp hlook
    rw [expandOne]
    refine List.mem_map.mpr ⟨p, hp, ?_⟩
    rw [hlook]

/-- Witness for C6: an input of a loop-free task is inherited unchanged by
expansion. -/
theorem C6_subpath_rewrite_witness :
    ("north", Binding.workflowInput "north") ∈
      (expandOne generate_sunpath ⟨"g", 0, ""⟩).inputs :=
  C6_subpath_rewrite.2 generate_sunpath ⟨"g", 0, ""⟩
    ("north", .workflowInput "north") (by decide) rfl

/-! ### Scheduler: fail-fast propagation (modelled from the spec, section 4.3) -/

/-- Terminal node states of a completed run. -/
inductive NodeStatus where
  | Succeeded
  | Failed
  | Skipped
deriving DecidableEq

/-- Overall run result. -/
inductive RunStatus where
  | Succeeded
  | Failed
deriving DecidableEq

/-- The status recorded for node `v`, if any. -/
def statusOf (assigned : List (String × NodeStatus)) (v : String) : Option NodeStatus :=
  (assigned.find? (fun p => p.1 == v)).map (·.2)

/-- The terminal status a node receives when dispatched: `Skipped` unless all
dependencies succeeded, otherwise `Failed` or `Succeeded` according to its
external template outcome. -/
def stepStatus (deps : String → List String) (fails : String → Bool)
    (acc : List (String × NodeStatus)) (v : String) : NodeStatus :=
  if (deps v).all (fun u => statusOf acc u == some .Succeeded) then
    (if fails v then .Failed else .Succeeded)
  else .Skipped

/-- Modelled from the spec: fail-fast execution along a topological order
(section 4.3): a node whose dependencies all succeeded runs, and fails exactly
when its external template fails; a node with a non-succeeded dependency is
`Skipped` and never run. -/
def runSched (deps : String → List String) (fails : String → Bool)
    (acc : List (String × NodeStatus)) : List String → List (String × NodeStatus)
  | [] => acc
  | v :: rest => runSched deps fails (acc ++ [(v, stepStatus deps fails acc v)]) rest

/-- The final status assignment of a run over `order`. -/
def runStatuses (deps : String → List String) (fails : String → Bool)
    (order : List String) : List (String × NodeStatus) :=
  runSched deps fails [] order

/-- Modelled from the spec: the run is reported `Failed` once some node
failed. -/
def overallStatus (final : List (String × NodeStatus)) : RunStatus :=
  if final.any (fun p => p.2 == NodeStatus.Failed) then .Failed else .Succeeded

/-- Whether an order is dependency-consistent: every dependency of each node
appears among the nodes seen before it. -/
def consistentOrderB (deps : String → List String) : List String → List String → Bool
  | _, [] => true
  | seen, v :: rest =>
    (deps v).all (fun u => decide (u ∈ seen)) && consistentOrderB deps (seen ++ [v]) rest

/-- Transitive dependency paths: `DepPath deps a b` holds when `a` is a direct
or transitive dependency of `b`. -/
inductive DepPath (deps : String → List String) : String → String → Prop
  | direct {a b : String} : a ∈ deps b → DepPath deps a b
  | tail {a b c : String} : DepPath deps a b → b ∈ deps c → DepPath deps a c

/-- The dependencies of `v` read off an edge list. -/
def depsOfEdges (edges : List (String × String)) (v : String) : List String :=
  edges.filterMap (fun e => if e.2 = v then some e.1 else none)

/-- The dependency function of the entry-point graph. -/
def entryDeps : String → List String :=
  depsOfEdges (edgesOf AnnualRadiationEntryPoint)

theorem depPath_mem_closed {deps : String → List String} {seen : List String}
    (hclosed : ∀ u ∈ seen, ∀ w ∈ deps u, w ∈ seen) :
    ∀ {a b : String}, DepPath deps a b → b ∈ seen → a ∈ seen := by
  intro a b h
  induction h with
  | direct hab => intro hb; exact hclosed _ hb _ hab
  | tail hpath hbc ih => intro hc; exact ih (hclosed _ hc _ hbc)

theorem statusOf_cons_pos {a : String × NodeStatus} {acc : List (String × NodeStatus)}
    {u : String} (h : a.1 = u) : statusOf (a :: acc) u = some a.2 := by
  simp [statusOf, List.find?, h]

theorem statusOf_cons_neg {a : String × NodeStatus} {acc : List (String × NodeStatus)}
    {u : String} (h : a.1 ≠ u) : statusOf (a :: acc) u = statusOf acc u := by
  simp only [statusOf, List.find?]
  rw [show (a.1 == u) = false from beq_eq_false_iff_ne.mpr h]

theorem statusOf_append_left {acc : List (String × NodeStatus)} {u : String}
    (h : u ∈ acc.map Prod.fst) (ext : List (String × NodeStatus)) :
    statusOf (acc ++ ext) u = statusOf acc u := by
  induction acc with
  | nil => cases h
  | cons a acc ih =>
    by_cases ha : a.1 = u
    · rw [List.cons_append, statusOf_cons_pos ha, statusOf_cons_pos ha]
    · have h' : u ∈ acc.map Prod.fst := by
        rw [List.map_cons] at h
        rcases List.mem_cons.mp h with h1 | h1
        · exact absurd h1.symm ha
        · exact h1
      rw [List.cons_append, statusOf_cons_neg ha, statusOf_cons_neg ha]
      exact ih h'

theorem statusOf_append_right {acc : List (String × NodeStatus)} {u : String}
    (h : u ∉ acc.map Prod.fst) (st : NodeStatus) :
    statusOf (acc ++ [(u, st)]) u = some st := by
  induction acc with
  | nil => simp [statusOf, List.find?]
  | cons a acc ih =>
    have hau : a.1 ≠ u := by
      intro hb
      apply h
      rw [List.map_cons, hb]
      exact List.mem_cons_self _ _
    rw [List.cons_append, statusOf_cons_neg hau]
    exact ih (fun hm => h (by rw [List.map_cons]; exact List.mem_cons_of_mem _ hm))

theorem statusOf_some_mem {acc : List (String × NodeStatus)} {v : String}
    {st : NodeStatus} (h : statusOf acc v = some st) : (v, st) ∈ acc := by
  induction acc with
  | nil => cases h
  | cons a acc ih =>
    by_cases ha : a.1 = v
    · rw [statusOf_cons_pos ha] at h
      have h2 : a.2 = st := Option.some.inj h
      have hav : (v, st) = a := by rw [← ha, ← h2]
      rw [hav]
      exact List.mem_cons_self _ _
    · rw [statusOf_cons_neg ha] at h
      exact List.mem_cons_of_mem _ (ih h)

theorem runSched_go (deps : String → List String) (f : String) :
    ∀ (rest seen : List String) (acc : List (String × NodeStatus)),
      (seen ++ rest).Nodup →
      acc.map Prod.fst = seen →
      consistentOrderB deps seen rest = true →
      (∀ u ∈ seen, ∀ w ∈ deps u, w ∈ seen) →
      (∀ u ∈ seen,
        (u = f → statusOf acc u = some .Failed) ∧
        (DepPath deps f u → statusOf acc u = some .Skipped) ∧
        (u ≠ f → ¬ DepPath deps f u → statusOf acc u = some .Succeeded)) →
      ∀ v ∈ seen ++ rest,
        (v = f →
          statusOf (runSched deps (fun w => w == f) acc rest) v = some .Failed) ∧
        (DepPath deps f v →
          statusOf (runSched deps (fun w => w == f) acc rest) v = some .Skipped) ∧
        (v ≠ f → ¬ DepPath deps f v →
          statusOf (runSched deps (fun w => w == f) acc rest) v = some .Succeeded) := by
  classical
  intro rest
  induction rest with
  | nil =>
    intro seen acc hnd hmap hcons hclosed hinv v hv
    rw [List.append_nil] at hv
    simpa [runSched] using hinv v hv
  | cons v0 rest ih =>
    intro seen acc hnd hmap hcons hclosed hinv v hv
    simp only [consistentOrderB, Bool.and_eq_true] at hcons
    obtain ⟨hdep0, hcons'⟩ := hcons
    have hdeps0 : ∀ u ∈ deps v0, u ∈ seen := by
      intro u hu
      simpa using List.all_eq_true.mp hdep0 u hu
    have hv0notin : v0 ∉ seen := by
      intro hmem
      exact (List.nodup_append.mp hnd).2.2 hmem (List.mem_cons_self _ _)
    have hnopath : ∀ a, DepPath deps a v0 → a ∈ seen := by
      intro a hp
      cases hp with
      | direct h => exact hdeps0 _ h
      | tail hpb h => exact depPath_mem_closed hclosed hpb (hdeps0 _ h)
    -- classify the status assigned to `v0`
    have hready_of : (∀ u ∈ deps v0, statusOf acc u = some .Succeeded) →
        ((deps v0).all (fun u => statusOf acc u == some NodeStatus.Succeeded)) = true := by
      intro hall
      refine List.all_eq_true.mpr (fun u hu => ?_)
      rw [hall u hu]
      rfl
    have hst : stepStatus deps (fun w => w == f) acc v0 =
        (if v0 = f then .Failed else
          (if DepPath deps f v0 then .Skipped else .Succeeded)) := by
      by_cases hvf : v0 = f
      · rw [if_pos hvf]
        have hready : ((deps v0).all
            (fun u => statusOf acc u == some NodeStatus.Succeeded)) = true := by
          refine hready_of (fun u hu => ?_)
          have huseen := hdeps0 u hu
          have hune : u ≠ f := by
            intro hue
            rw [← hvf] at hue
            rw [hue] at huseen
            exact hv0notin huseen
          have hunp : ¬ DepPath deps f u := by
            intro hp
            have := hnopath f (DepPath.tail hp hu)
            rw [← hvf] at this
            exact hv0notin this
          exact (hinv u huseen).2.2 hune hunp
        rw [stepStatus, if_pos hready, if_pos (by rw [hvf]; exact beq_self_eq_true f)]
      · rw [if_neg hvf]
        by_cases hpath : DepPath deps f v0
        · rw [if_pos hpath]
          have hnotready : ((deps v0).all
              (fun u => statusOf acc u == some NodeStatus.Succeeded)) = false := by
            rw [Bool.eq_false_iff]
            intro hall
            cases hpath with
            | direct h =>
              have := List.all_eq_true.mp hall f h
              rw [(hinv f (hdeps0 f h)).1 rfl] at this
              simp at this
            | tail hpb h =>
              rename_i b
              have hbseen := hdeps0 b h
              have hb := List.all_eq_true.mp hall b h
              by_cases hbf : b = f
              · rw [hbf] at hb
                rw [(hinv f (hbf ▸ hbseen)).1 rfl] at hb
                simp at hb
              · rw [(hinv b hbseen).2.1 hpb] at hb
                simp at hb
          rw [stepStatus, hnotready]
          rfl
        · rw [if_neg hpath]
          have hready : ((deps v0).all
              (fun u => statusOf acc u == some NodeStatus.Succeeded)) = true := by
            refine hready_of (fun u hu => ?_)
            have huseen := hdeps0 u hu
            have hune : u ≠ f := by
              intro hue
              exact hpath (hue ▸ DepPath.direct hu)
            have hunp : ¬ DepPath deps f u := by
              intro hp
              exact hpath (DepPath.tail hp hu)
            exact (hinv u huseen).2.2 hune hunp
          rw [stepStatus, if_pos hready, if_neg (by simp [hvf])]
    -- extend the invariant and recurse
    have hmapseen : acc.map Prod.fst = seen := hmap
    have hv0notacc : v0 ∉ acc.map Prod.fst := by rw [hmapseen]; exact hv0notin
    have hassoc : seen ++ v0 :: rest = (seen ++ [v0]) ++ rest := by
      rw [List.append_assoc]
      rfl
    have hnd' : ((seen ++ [v0]) ++ rest).Nodup := by rw [← hassoc]; exact hnd
    have hmap' : (acc ++ [(v0, stepStatus deps (fun w => w == f) acc v0)]).map Prod.fst =
        seen ++ [v0] := by
      rw [List.map_append, hmapseen]
      rfl
    have hclosed' : ∀ u ∈ seen ++ [v0], ∀ w ∈ deps u, w ∈ seen ++ [v0] := by
      intro u hu w hw
      rcases List.mem_append.mp hu with h1 | h1
      · exact List.mem_append_left _ (hclosed u h1 w hw)
      · have : u = v0 := by simpa using h1
        rw [this] at hw
        exact List.mem_append_left _ (hdeps0 w hw)
    have hinv' : ∀ u ∈ seen ++ [v0],
        (u = f → statusOf (acc ++ [(v0, stepStatus deps (fun w => w == f) acc v0)]) u =
          some .Failed) ∧
        (DepPath deps f u →
          statusOf (acc ++ [(v0, stepStatus deps (fun w => w == f) acc v0)]) u =
            some .Skipped) ∧
        (u ≠ f → ¬ DepPath deps f u →
          statusOf (acc ++ [(v0, stepStatus deps (fun w => w == f) acc v0)]) u =
            some .Succeeded) := by
      intro u hu
      rcases List.mem_append.mp hu with h1 | h1
      · have humem : u ∈ acc.map Prod.fst := by rw [hmapseen]; exact h1
        have hkeep := statusOf_append_left humem
          [(v0, stepStatus deps (fun w => w == f) acc v0)]
        obtain ⟨p1, p2, p3⟩ := hinv u h1
        exact ⟨fun h => by rw [hkeep]; exact p1 h,
               fun h => by rw [hkeep]; exact p2 h,
               fun h h' => by rw [hkeep]; exact p3 h h'⟩
      · have huv : u = v0 := by simpa using h1
        subst huv
        have hset := statusOf_append_right hv0notacc
          (stepStatus deps (fun w => w == f) acc u)
        refine ⟨?_, ?_, ?_⟩
        · intro huf
          rw [hset, hst, if_pos huf]
        · intro hp
          have hunf : u ≠ f := by
            intro hq
            exact (hq ▸ hv0notin) (hq ▸ hnopath f hp)
          rw [hset, hst, if_neg hunf, if_pos hp]
        · intro hunf hnp
          rw [hset, hst, if_neg hunf, if_neg hnp]
    have hres := ih (seen ++ [v0])
      (acc ++ [(v0, stepStatus deps (fun w => w == f) acc v0)])
      hnd' hmap' hcons' hclosed' hinv'
    have hv' : v ∈ (seen ++ [v0]) ++ rest := by rw [← hassoc]; exact hv
    simp only [runSched]
    exact hres v hv'

/-- C4: when a non-loop node fails, every transitive dependent ends `Skipped`
and is never run, the overall run status is `Failed`, and every node with no
dependency path from the failed node still reaches `Succeeded`; concretely,
failing `generate_sunpath` in the entry graph skips `create_octree_with_suns`,
`parse_sun_up_hours` and `annual_radiation_raytracing` while the other four
tasks succeed. -/
theorem C4_failure_propagation :
    (∀ (deps : String → List String) (order : List String) (f : String),
        order.Nodup → consistentOrderB deps [] order = true → f ∈ order →
        statusOf (runStatuses deps (fun w => w == f) order) f = some .Failed ∧
        (∀ v ∈ order, DepPath deps f v →
          statusOf (runStatuses deps (fun w => w == f) order) v = some .Skipped) ∧
        (∀ v ∈ order, v ≠ f → ¬ DepPath deps f v →
          statusOf (runStatuses deps (fun w => w == f) order) v = some .Succeeded) ∧
        overallStatus (runStatuses deps (fun w => w == f) order) = .Failed)
    ∧ runStatuses entryDeps (fun w => w == "generate_sunpath")
        (nodeIds AnnualRadiationEntryPoint) =
      [("generate_sunpath", .Failed), ("create_rad_folder", .Succeeded),
       ("create_octree", .Succeeded), ("create_octree_with_suns", .Skipped),
       ("create_sky_dome", .Succeeded), ("create_indirect_sky", .Succeeded),
       ("parse_sun_up_hours", .Skipped), ("annual_radiation_raytracing", .Skipped)]
    ∧ overallStatus (runStatuses entryDeps (fun w => w == "generate_sunpath")
        (nodeIds AnnualRadiationEntryPoint)) = .Failed := by
  refine ⟨?_, by decide, by decide⟩
  intro deps order f hnd hcons hf
  have hall := runSched_go deps f order [] [] (by simpa using hnd) rfl
    (by simpa using hcons) (by intro u hu; cases hu) (by intro u hu; cases hu)
  have hfprops := hall f (by simpa using hf)
  refine ⟨hfprops.1 rfl, ?_, ?_, ?_⟩
  · intro v hv hp
    exact (hall v (by simpa using hv)).2.1 hp
  · intro v hv h1 h2
    exact (hall v (by simpa using hv)).2.2 h1 h2
  · have hmem := statusOf_some_mem (hfprops.1 rfl)
    have hany : ((runStatuses deps (fun w => w == f) order).any
        fun p => p.2 == NodeStatus.Failed) = true :=
      List.any_eq_true.mpr ⟨(f, NodeStatus.Failed), hmem, rfl⟩
    rw [overallStatus, if_pos hany]

/-- Witness for C4: in the entry graph with `generate_sunpath` failing, its
direct dependent `create_octree_with_suns` is `Skipped`. -/
theorem C4_failure_propagation_witness :
    statusOf (runStatuses entryDeps (fun w => w == "generate_sunpath")
        (nodeIds AnnualRadiationEntryPoint)) "create_octree_with_suns" =
      some NodeStatus.Skipped :=
  (C4_failure_propagation.1 entryDeps (nodeIds AnnualRadiationEntryPoint)
      "generate_sunpath" (by decide) (by decide) (by decide)).2.1
    "create_octree_with_suns" (by decide) (DepPath.direct (by decide))

/-! ### Concurrent scheduler step relation (modelled from the spec, section 4.3/5) -/

/-- Per-node scheduler states. -/
inductive SchedStatus where
  | Pending
  | Running
  | Succeeded
  | Failed
  | Skipped
deriving DecidableEq

/-- Pointwise state update. -/
def updState (s : String → SchedStatus) (v : String) (st : SchedStatus) :
    String → SchedStatus :=
  fun w => if w = v then st else s w

/-- The initial state: every node `Pending`. -/
def initState : String → SchedStatus := fun _ => .Pending

/-- Modelled from the spec: one scheduler transition (sections 4.3 and 5): a
node may start only when all its dependencies have succeeded; a running node
may finish either way; a pending node with a failed or skipped dependency is
skipped. -/
inductive SchedStep (deps : String → List String) :
    (String → SchedStatus) → (String → SchedStatus) → Prop
  | start (s : String → SchedStatus) (v : String) :
      s v = .Pending → (∀ u ∈ deps v, s u = .Succeeded) →
      SchedStep deps s (updState s v .Running)
  | finishOk (s : String → SchedStatus) (v : String) :
      s v = .Running → SchedStep deps s (updState s v .Succeeded)
  | finishFail (s : String → SchedStatus) (v : String) :
      s v = .Running → SchedStep deps s (updState s v .Failed)
  | skip (s : String → SchedStatus) (v u : String) :
      s v = .Pending → u ∈ deps v → (s u = .Failed ∨ s u = .Skipped) →
      SchedStep deps s (updState s v .Skipped)

/-- States reachable from the all-pending initial state. -/
def Reachable (deps : String → List String) (s : String → SchedStatus) : Prop :=
  Relation.ReflTransGen (SchedStep deps) initState s

/-- The executable graph after loop expansion over a discovered collection:
the seven non-loop tasks plus one instance per item. -/
def expandedNodes (items : List LoopItem) : List TaskNode :=
  [generate_sunpath, create_rad_folder, create_octree, create_octree_with_suns,
   create_sky_dome, create_indirect_sky, parse_sun_up_hours] ++
    items.map (expandOne annual_radiation_raytracing)

theorem sched_step_preserves_succeeded {deps : String → List String}
    {b c : String → SchedStatus} (h : SchedStep deps b c) {u : String}
    (hu : b u = .Succeeded) : c u = .Succeeded := by
  cases h with
  | start v hp hdeps =>
    by_cases hv : u = v
    · rw [hv] at hu
      cases hp.symm.trans hu
    · rw [updState, if_neg hv]
      exact hu
  | finishOk v hr =>
    by_cases hv : u = v
    · rw [updState, if_pos hv]
    · rw [updState, if_neg hv]
      exact hu
  | finishFail v hr =>
    by_cases hv : u = v
    · rw [hv] at hu
      cases hr.symm.trans hu
    · rw [updState, if_neg hv]
      exact hu
  | skip v w hp hw hst =>
    by_cases hv : u = v
    · rw [hv] at hu
      cases hp.symm.trans hu
    · rw [updState, if_neg hv]
      exact hu

theorem sched_step_inv {deps : String → List String} {b c : String → SchedStatus}
    (hstep : SchedStep deps b c)
    (hinv : ∀ v, b v = .Running → ∀ u ∈ deps v, b u = .Succeeded) :
    ∀ v, c v = .Running → ∀ u ∈ deps v, c u = .Succeeded := by
  intro v hv u hu
  have hpres : ∀ x, b x = .Succeeded → c x = .Succeeded :=
    fun x hx => sched_step_preserves_succeeded hstep hx
  cases hstep with
  | start w hp hdeps =>
    by_cases hvw : v = w
    · subst hvw
      exact hpres u (hdeps u hu)
    · have hbv : b v = .Running := by simpa [updState, hvw] using hv
      exact hpres u (hinv v hbv u hu)
  | finishOk w hr =>
    have hvw : v ≠ w := by
      intro he
      subst he
      rw [updState, if_pos rfl] at hv
      cases hv
    have hbv : b v = .Running := by simpa [updState, hvw] using hv
    exact hpres u (hinv v hbv u hu)
  | finishFail w hr =>
    have hvw : v ≠ w := by
      intro he
      subst he
      rw [updState, if_pos rfl] at hv
      cases hv
    have hbv : b v = .Running := by simpa [updState, hvw] using hv
    exact hpres u (hinv v hbv u hu)
  | skip w x hp hx hst =>
    have hvw : v ≠ w := by
      intro he
      subst he
      rw [updState, if_pos rfl] at hv
      cases hv
    have hbv : b v = .Running := by simpa [updState, hvw] using hv
    exact hpres u (hinv v hbv u hu)

/-- C7: in every reachable execution state, no node is `Running` unless every
one of its dependencies has reported `Succeeded`; in particular this holds for
the expanded entry graph over any discovered collection, whose dependency
function covers every expanded instance. -/
theorem C7_no_premature_start :
    (∀ (deps : String → List String) (s : String → SchedStatus),
        Reachable deps s → ∀ v, s v = .Running → ∀ u ∈ deps v, s u = .Succeeded)
    ∧ (∀ (items : List LoopItem) (s : String → SchedStatus),
        Reachable (depsOfEdges (edgesOf (expandedNodes items))) s →
        ∀ v, s v = .Running →
          ∀ u ∈ depsOfEdges (edgesOf (expandedNodes items)) v, s u = .Succeeded) := by
  have hmain : ∀ (deps : String → List String) (s : String → SchedStatus),
      Reachable deps s → ∀ v, s v = .Running → ∀ u ∈ deps v, s u = .Succeeded := by
    intro deps s hreach
    induction hreach with
    | refl =>
      intro v hv
      cases hv
    | tail hab hbc ih =>
      exact sched_step_inv hbc ih
  exact ⟨hmain, fun items => hmain _⟩

/-- Witness for C7: after starting and finishing `create_rad_folder` and then
starting `create_octree`, the dependency `create_rad_folder` of the running
`create_octree` reads `Succeeded`. -/
theorem C7_no_premature_start_witness :
    (updState (updState (updState initState "create_rad_folder" .Running)
        "create_rad_folder" .Succeeded) "create_octree" .Running)
      "create_rad_folder" = SchedStatus.Succeeded := by
  have h1 : SchedStep entryDeps initState
      (updState initState "create_rad_folder" .Running) :=
    SchedStep.start initState "create_rad_folder" rfl
      (by
        intro u hu
        rw [show entryDeps "create_rad_folder" = [] from rfl] at hu
        cases hu)
  have h2 : SchedStep entryDeps (updState initState "create_rad_folder" .Running)
      (updState (updState initState "create_rad_folder" .Running)
        "create_rad_folder" .Succeeded) :=
    SchedStep.finishOk _ "create_rad_folder" rfl
  have h3 : SchedStep entryDeps
      (updState (updState initState "create_rad_folder" .Running)
        "create_rad_folder" .Succeeded)
      (updState (updState (updState initState "create_rad_folder" .Running)
        "create_rad_folder" .Succeeded) "create_octree" .Running) :=
    SchedStep.start _ "create_octree" rfl
      (by
        intro u hu
        rw [show entryDeps "create_octree" = ["create_rad_folder"] from rfl] at hu
        rw [List.mem_singleton.mp hu]
        rfl)
  exact C7_no_premature_start.1 entryDeps _
    (Relation.ReflTransGen.tail
      (Relation.ReflTransGen.tail (Relation.ReflTransGen.single h1) h2) h3)
    "create_octree" rfl "create_rad_folder" (by decide)

/-! ### Determinism across schedules (claim C8) -/

/-- Lexicographic sort of node ids, the deterministic reporting order. -/
def sortLex (l : List String) : List String := l.insertionSort (· ≤ ·)

/-- The ids of the loop instances of a discovered collection. -/
def loopInstanceIds (items : List LoopItem) : List String :=
  (items.map (expandOne annual_radiation_raytracing)).map (·.id)

/-- The reproducible summary of one run: the reported set of executed nodes,
the per-instance resolved sub-folders, and the aggregation order of the
per-grid results routed into the workflow outputs. -/
structure RunRecord where
  executed : List String
  subFolders : List (Option String)
  aggregationOrder : List String
deriving DecidableEq

/-- Modelled from the spec: the run summary computed from a wall-clock
completion schedule `sched` (a permutation of the expanded node ids); output
aggregation is sorted lexicographically (section 4.4). -/
def runRecord (items : List LoopItem) (sched : List String) : RunRecord :=
  { executed := sortLex sched
  , subFolders := (items.map (expandOne annual_radiation_raytracing)).map (·.subFolder)
  , aggregationOrder :=
      sortLex (sched.filter (fun v => (loopInstanceIds items).contains v)) }

/-- C8: two runs over the same workflow inputs and the same discovered
collection produce identical executed-node sets, instance ids, sub-folder
paths, and output aggregation order, whatever the wall-clock interleaving of
independent nodes (any two schedules that are permutations of the expanded
node ids give the same record). -/
theorem C8_determinism :
    ∀ (items : List LoopItem) (sched1 sched2 : List String),
      sched1.Perm (nodeIds (expandedNodes items)) →
      sched2.Perm (nodeIds (expandedNodes items)) →
      runRecord items sched1 = runRecord items sched2 := by
  intro items s1 s2 h1 h2
  have h12 : s1.Perm s2 := h1.trans h2.symm
  have hsort : ∀ {a b : List String}, a.Perm b → sortLex a = sortLex b := by
    intro a b hab
    refine List.eq_of_perm_of_sorted ?_ (List.sorted_insertionSort _ a)
      (List.sorted_insertionSort _ b)
    exact (List.perm_insertionSort _ a).trans
      (hab.trans (List.perm_insertionSort _ b).symm)
  have e1 : sortLex s1 = sortLex s2 := hsort h12
  have e3 : sortLex (s1.filter (fun v => (loopInstanceIds items).contains v)) =
      sortLex (s2.filter (fun v => (loopInstanceIds items).contains v)) :=
    hsort (h12.filter _)
  rw [runRecord, runRecord, e1, e3]

/-- Witness for C8: over a two-grid collection, the declaration-order schedule
and its reverse produce the same run record. -/
theorem C8_determinism_witness :
    runRecord [⟨"g1", 1, "a"⟩, ⟨"g2", 2, "b"⟩]
        (nodeIds (expandedNodes [⟨"g1", 1, "a"⟩, ⟨"g2", 2, "b"⟩])) =
      runRecord [⟨"g1", 1, "a"⟩, ⟨"g2", 2, "b"⟩]
        (nodeIds (expandedNodes [⟨"g1", 1, "a"⟩, ⟨"g2", 2, "b"⟩])).reverse :=
  C8_determinism _ _ _ (List.Perm.refl _) (List.reverse_perm _)

/-! ### Claims C9 and C10 -/

/-- C9: in this DAG, every input bound to another task's output names a
producer that also appears in the consuming task's explicit `needs` list, so
the implicit input-reference edges are a subset of the explicit edges. -/
theorem C9_implicit_subset_explicit :
    (AnnualRadiationEntryPoint.all (fun n => n.inputs.all (fun p =>
        match bindingRefTarget p.2 with
        | some m => n.needs.contains m
        | none => true))) = true
    ∧ ((refEdges AnnualRadiationEntryPoint).all
        (fun e => decide (e ∈ needsEdges AnnualRadiationEntryPoint))) = true :=
  ⟨by decide, by decide⟩

/-- The workflow-level inputs of `AnnualRadiationEntryPoint`, with JSON
numbers modelled as rationals. -/
structure WorkflowInputs where
  north : ℚ
  sensor_count : Int
  radiance_parameters : String
  model : String
  wea : String

/-- Whether `path` ends with `.ext`. -/
def hasExtension (path ext : String) : Bool :=
  ("." ++ ext).data.isSuffixOf path.data

/-- Validation of `north` from its declared spec
`(type number, minimum 0, maximum 360)`. -/
def northValid (x : ℚ) : Bool := decide (0 ≤ x) && decide (x ≤ 360)

/-- Validation of `sensor_count` from its declared spec
`(type integer, minimum 1)`. -/
def sensorCountValid (n : Int) : Bool := decide (1 ≤ n)

/-- Validation of `model` from its declared extensions `json` and `hbjson`. -/
def modelValid (p : String) : Bool := hasExtension p "json" || hasExtension p "hbjson"

/-- Validation of `wea` from its declared extension `wea`. -/
def weaValid (p : String) : Bool := hasExtension p "wea"

/-- Modelled from the spec: workflow-input validation applied at binding time,
before graph execution. -/
def validateWorkflowInputs (w : WorkflowInputs) : Bool :=
  northValid w.north && sensorCountValid w.sensor_count &&
    modelValid w.model && weaValid w.wea

/-- The declared default of `north` in `entry.py`. -/
def northDefault : ℚ := 0

/-- The declared default of `sensor_count` in `entry.py`. -/
def sensorCountDefault : Int := 200

/-- The declared default of `radiance_parameters` in `entry.py`. -/
def radianceParametersDefault : String := "-ab 2 -ad 5000 -lw 2e-05"

/-- C10: a workflow binding is accepted exactly when `north` lies in
`[0, 360]`, `sensor_count` is an integer at least 1, `model` has extension
`json` or `hbjson`, and `wea` has extension `wea`; the declared defaults
(`north = 0`, `sensor_count = 200`) are accepted. -/
theorem C10_input_validation :
    (∀ w : WorkflowInputs, validateWorkflowInputs w = true ↔
        (0 ≤ w.north ∧ w.north ≤ 360 ∧ 1 ≤ w.sensor_count ∧
          (hasExtension w.model "json" = true ∨ hasExtension w.model "hbjson" = true) ∧
          hasExtension w.wea "wea" = true))
    ∧ northValid northDefault = true ∧ sensorCountValid sensorCountDefault = true := by
  refine ⟨?_, by decide, by decide⟩
  intro w
  simp [validateWorkflowInputs, northValid, sensorCountValid, modelValid, weaValid,
    Bool.and_eq_true, Bool.or_eq_true, decide_eq_true_eq, and_assoc]

end AnnualRadiation
